import Mathlib

/-!
Verification of the regex-tool repository (src/regex-tool.py): a shallow
embedding of its core functions (`colorize_matches`, `show_captured_groups`,
and the interactive loop of `main`) together with an executable model of the
underlying regular-expression engine, and theorems settling the specified
properties of the match/highlight/inspect pipeline.
-/

namespace RegexTool

/-! ## ANSI color constants (class Colors, src lines 11-18) -/

def Colors.RED : String := "\x1b[91m"
def Colors.GREEN : String := "\x1b[92m"
def Colors.YELLOW : String := "\x1b[93m"
def Colors.BLUE : String := "\x1b[94m"
def Colors.MAGENTA : String := "\x1b[95m"
def Colors.CYAN : String := "\x1b[96m"
def Colors.RESET : String := "\x1b[0m"

/-! ## Regex engine model

Modelled from the spec: the regular-expression engine used by the tool is the
Python standard library module `re`, which is not part of this repository.
Section 6 of the spec fixes its interface semantics: leftmost-first,
non-overlapping, greedy-by-default matching with zero-width matches and named
capturing groups, and a compiler that reports diagnostics on malformed
patterns.  The model below implements that capability executably over an
abstract syntax of regular expressions plus a parser producing the same
diagnostics CPython emits on the malformed inputs exercised here.  Constructs
outside the specified subset (backreferences, lookaround, flags) are rejected
at compile time. -/

/-- Abstract syntax of the modelled regular-expression subset. -/
inductive Regex where
  | eps
  | chr (c : Char)
  | dot
  | cls (neg : Bool) (ranges : List (Char × Char))
  | alt (a b : Regex)
  | cat (a b : Regex)
  | star (a : Regex)
  | lstar (a : Regex)
  | group (idx : Nat) (a : Regex)
  | bol
  | eol
  | bos
  | eos
  | wordb
  | nwordb
deriving Repr, DecidableEq

/-- Captured-group bindings recorded during a match: (group index, start, end).
Later bindings override earlier ones, as in CPython's engine. -/
abbrev Caps := List (Nat × Nat × Nat)

/-- Character-class membership: any of the ranges contains the character
(ranges are inclusive; a single character is the range (c,c)); negation flips. -/
def clsMatch (neg : Bool) (ranges : List (Char × Char)) (c : Char) : Bool :=
  let hit := ranges.any (fun r => r.1 ≤ c && c ≤ r.2)
  if neg then !hit else hit

/-- Word characters for the word-boundary assertions. -/
def isWordChar (c : Char) : Bool :=
  ('a' ≤ c && c ≤ 'z') || ('A' ≤ c && c ≤ 'Z') || ('0' ≤ c && c ≤ '9') || c = '_'

/-- Greedy Kleene-star iteration: given the body matcher f, produce all match
end points in priority order, longer iterations first, never re-entering the
body on a zero-width body match (the engine's no-stall rule). -/
def starIter (f : Nat → List (Nat × Caps)) : Nat → Nat → List (Nat × Caps)
  | 0, pos => [(pos, [])]
  | fuel + 1, pos =>
      ((f pos).filter (fun x => pos < x.1)).flatMap
        (fun x => (starIter f fuel x.1).map (fun y => (y.1, x.2 ++ y.2)))
      ++ [(pos, [])]

/-- Lazy (non-greedy) star iteration: the zero-iteration outcome comes first. -/
def starIterL (f : Nat → List (Nat × Caps)) : Nat → Nat → List (Nat × Caps)
  | 0, pos => [(pos, [])]
  | fuel + 1, pos =>
      (pos, []) ::
      ((f pos).filter (fun x => pos < x.1)).flatMap
        (fun x => (starIterL f fuel x.1).map (fun y => (y.1, x.2 ++ y.2)))

/-- Matcher: all end positions (with captures) at which r matches text starting
at pos, in the engine's backtracking priority order; the head is the
leftmost-first (greedy-by-default) result.  The fuel argument bounds the
structural recursion depth; rdepth of the regex is always sufficient. -/
def mtch (text : List Char) : Nat → Regex → Nat → List (Nat × Caps)
  | 0, _, _ => []
  | _ + 1, .eps, pos => [(pos, [])]
  | _ + 1, .chr c, pos =>
      if pos < text.length && text.getD pos (Char.ofNat 0) = c then [(pos + 1, [])] else []
  | _ + 1, .dot, pos =>
      if pos < text.length && text.getD pos (Char.ofNat 0) ≠ '\n' then [(pos + 1, [])] else []
  | _ + 1, .cls neg rs, pos =>
      if pos < text.length && clsMatch neg rs (text.getD pos (Char.ofNat 0)) then [(pos + 1, [])] else []
  | fuel + 1, .alt a b, pos => mtch text fuel a pos ++ mtch text fuel b pos
  | fuel + 1, .cat a b, pos =>
      (mtch text fuel a pos).flatMap
        (fun x => (mtch text fuel b x.1).map (fun y => (y.1, x.2 ++ y.2)))
  | fuel + 1, .star a, pos => starIter (fun p => mtch text fuel a p) (text.length + 1) pos
  | fuel + 1, .lstar a, pos => starIterL (fun p => mtch text fuel a p) (text.length + 1) pos
  | fuel + 1, .group i a, pos =>
      (mtch text fuel a pos).map (fun x => (x.1, x.2 ++ [(i, pos, x.1)]))
  | _ + 1, .bol, pos =>
      if pos = 0 || text.getD (pos - 1) (Char.ofNat 0) = '\n' then [(pos, [])] else []
  | _ + 1, .eol, pos =>
      if pos = text.length || (pos + 1 = text.length && text.getD pos (Char.ofNat 0) = '\n')
      then [(pos, [])] else []
  | _ + 1, .bos, pos => if pos = 0 then [(pos, [])] else []
  | _ + 1, .eos, pos => if pos = text.length then [(pos, [])] else []
  | _ + 1, .wordb, pos =>
      let before := pos ≠ 0 && isWordChar (text.getD (pos - 1) (Char.ofNat 0))
      let after := pos < text.length && isWordChar (text.getD pos (Char.ofNat 0))
      if before ≠ after then [(pos, [])] else []
  | _ + 1, .nwordb, pos =>
      let before := pos ≠ 0 && isWordChar (text.getD (pos - 1) (Char.ofNat 0))
      let after := pos < text.length && isWordChar (text.getD pos (Char.ofNat 0))
      if before = after then [(pos, [])] else []

/-- Structural depth of a regex; an always-sufficient fuel for mtch. -/
def rdepth : Regex → Nat
  | .alt a b => max (rdepth a) (rdepth b) + 1
  | .cat a b => max (rdepth a) (rdepth b) + 1
  | .star a => rdepth a + 1
  | .lstar a => rdepth a + 1
  | .group _ a => rdepth a + 1
  | _ => 1

/-- All matches of r at position pos of text, priority order. -/
def mtchAt (text : List Char) (r : Regex) (pos : Nat) : List (Nat × Caps) :=
  mtch text (rdepth r) r pos

/-- Scan for the leftmost match at or after pos, trying successive start
positions; fuel counts the candidate start positions still to try. -/
def searchAux (text : List Char) (r : Regex) : Nat → Nat → Option (Nat × Nat × Caps)
  | 0, _ => none
  | fuel + 1, pos =>
      match (mtchAt text r pos).head? with
      | some x => some (pos, x.1, x.2)
      | none => searchAux text r fuel (pos + 1)

/-- Leftmost match of r in text at or after pos (span and captures), as the
engine's search primitive used by finditer. -/
def search (text : List Char) (r : Regex) (pos : Nat) : Option (Nat × Nat × Caps) :=
  searchAux text r (text.length + 1 - pos) pos

/-- Slice text[a:b] with Python slicing semantics (clamped, empty when b ≤ a). -/
def sliceC (text : List Char) (a b : Nat) : List Char :=
  (text.drop a).take (b - a)

/-- Match record: model of the Python match object as consumed by the tool
(span, full matched substring, and one optional value per capturing group
1..N; none marks a group that did not participate). -/
structure PyMatch where
  start : Nat
  stop : Nat
  full : String
  groups : List (Option String)
deriving Repr, DecidableEq

/-- Lookup of the last-recorded span for a group index (later bindings win). -/
def capsLookup (caps : Caps) (idx : Nat) : Option (Nat × Nat) :=
  (caps.reverse.find? (fun x => x.1 == idx)).map (fun x => x.2)

/-- Group values 1..ng of a match with captures caps. -/
def matchGroups (text : List Char) (ng : Nat) (caps : Caps) : List (Option String) :=
  (List.range ng).map
    (fun i => (capsLookup caps (i + 1)).map (fun sp => String.mk (sliceC text sp.1 sp.2)))

/-- Build the match record for a match with span [s,e) and captures caps. -/
def mkMatch (text : List Char) (ng : Nat) (s e : Nat) (caps : Caps) : PyMatch :=
  ⟨s, e, String.mk (sliceC text s e), matchGroups text ng caps⟩

@[simp] lemma mkMatch_start (text : List Char) (ng s e : Nat) (caps : Caps) :
    (mkMatch text ng s e caps).start = s := rfl

@[simp] lemma mkMatch_stop (text : List Char) (ng s e : Nat) (caps : Caps) :
    (mkMatch text ng s e caps).stop = e := rfl

/-- Scan loop of finditer: repeatedly search from pos; after a match the scan
resumes at its end, or one past it when the match was zero-width (the
no-stall rule).  fuel bounds the number of iterations; text.length + 2 is
always sufficient because the scan position strictly increases. -/
def finditerAux (text : List Char) (r : Regex) (ng : Nat) : Nat → Nat → List PyMatch
  | 0, _ => []
  | fuel + 1, pos =>
      match search text r pos with
      | none => []
      | some (s, e, caps) =>
          mkMatch text ng s e caps ::
            finditerAux text r ng fuel (if e = s then s + 1 else e)

/-- Result of compiling a pattern: regex, number of capturing groups, and the
declared-name-to-index mapping (groupindex), in declaration order. -/
structure Compiled where
  re : Regex
  ngroups : Nat
  groupindex : List (String × Nat)
deriving Repr, DecidableEq

/-- Model of re.finditer: the ordered list of non-overlapping matches of the
compiled pattern over the whole text, left to right. -/
def Re.finditer (c : Compiled) (text : String) : List PyMatch :=
  finditerAux text.data c.re c.ngroups (text.data.length + 2) 0

/-! ## Pattern parser (model of re.compile)

Modelled from the spec: compilation of a pattern string by the engine, with
the engine's diagnostic messages on malformed patterns (matching CPython's
wording for the error cases exercised below). -/

/-- Parser state: current index, groups opened so far, declared names. -/
structure PSt where
  i : Nat
  ng : Nat
  names : List (String × Nat)
deriving Repr, DecidableEq

/-- Ranges denoted by the class escape d (digits). -/
def clsRangesD : List (Char × Char) := [('0', '9')]

/-- Ranges denoted by the class escape w (word characters). -/
def clsRangesW : List (Char × Char) := [('a', 'z'), ('A', 'Z'), ('0', '9'), ('_', '_')]

/-- Ranges denoted by the class escape s (whitespace). -/
def clsRangesS : List (Char × Char) :=
  [(' ', ' '), ('\t', '\t'), ('\n', '\n'), ('\r', '\r'), ('\x0b', '\x0b'), ('\x0c', '\x0c')]

/-- Regex denoted by a top-level escape character (word boundary, anchors,
class shorthands, or an escaped literal). -/
def parseEsc (d : Char) : Regex :=
  if d = 'd' then .cls false clsRangesD
  else if d = 'D' then .cls true clsRangesD
  else if d = 'w' then .cls false clsRangesW
  else if d = 'W' then .cls true clsRangesW
  else if d = 's' then .cls false clsRangesS
  else if d = 'S' then .cls true clsRangesS
  else if d = 'b' then .wordb
  else if d = 'B' then .nwordb
  else if d = 'A' then .bos
  else if d = 'Z' then .eos
  else .chr d

/-- Diagnostic texts of the modelled engine (CPython re wording). -/
def msgUnterminatedSet (n : Nat) : String := s!"unterminated character set at position {n}"

def msgBadRange (c d : Char) (n : Nat) : String := s!"bad character range {c}-{d} at position {n}"

def msgMinMax (n : Nat) : String := s!"min repeat greater than max repeat at position {n}"

def msgMultipleRepeat (n : Nat) : String := s!"multiple repeat at position {n}"

def msgUnexpectedEnd (n : Nat) : String := s!"unexpected end of pattern at position {n}"

def msgMissingParen (n : Nat) : String := s!"missing ), unterminated subpattern at position {n}"

def msgMissingGroupName (n : Nat) : String := s!"missing group name at position {n}"

def msgMissingGt (n : Nat) : String := s!"missing >, unterminated name at position {n}"

def msgUnknownExtP (n : Nat) : String := s!"unknown extension ?P at position {n}"

def msgUnsupportedExt (n : Nat) : String := s!"unsupported extension at position {n}"

def msgUnbalanced (n : Nat) : String := s!"unbalanced parenthesis at position {n}"

def msgNothingToRepeat (n : Nat) : String := s!"nothing to repeat at position {n}"

def msgInvalidGroupRef (d : Char) (n : Nat) : String := s!"invalid group reference {d} at position {n}"

/-- Body of a character class: items up to the closing bracket. -/
def parseClsItems (inp : List Char) (openIdx : Nat) :
    Nat → Nat → List (Char × Char) → Except String (List (Char × Char) × Nat)
  | 0, _, _ => .error "pattern too deeply nested"
  | fuel + 1, i, acc =>
    match inp.get? i with
    | none => .error (msgUnterminatedSet openIdx)
    | some c =>
      if c = ']' then .ok (acc, i + 1)
      else if c = '\\' then
        match inp.get? (i + 1) with
        | none => .error "bad escape (end of pattern)"
        | some d =>
          if d = 'd' then parseClsItems inp openIdx fuel (i + 2) (acc ++ clsRangesD)
          else if d = 'w' then parseClsItems inp openIdx fuel (i + 2) (acc ++ clsRangesW)
          else if d = 's' then parseClsItems inp openIdx fuel (i + 2) (acc ++ clsRangesS)
          else parseClsItems inp openIdx fuel (i + 2) (acc ++ [(d, d)])
      else
        match inp.get? (i + 1), inp.get? (i + 2) with
        | some '-', some d =>
          if d = ']' then parseClsItems inp openIdx fuel (i + 1) (acc ++ [(c, c)])
          else if d ≤ c then .error (msgBadRange c d i)
          else parseClsItems inp openIdx fuel (i + 3) (acc ++ [(c, d)])
        | _, _ => parseClsItems inp openIdx fuel (i + 1) (acc ++ [(c, c)])

/-- Character class starting at the opening bracket at index i: optional
negation, then a leading bracket taken literally, then items. -/
def parseCls (inp : List Char) (i : Nat) : Except String (Regex × Nat) :=
  let p := if inp.get? (i + 1) = some '^' then (true, i + 2) else (false, i + 1)
  let q := if inp.get? p.2 = some ']' then ([((']' : Char), (']' : Char))], p.2 + 1)
           else ([], p.2)
  match parseClsItems inp i (inp.length + 2) q.2 q.1 with
  | .error e => .error e
  | .ok (rs, j) => .ok (.cls p.1 rs, j)

/-- Quantifier kinds recognized after an atom. -/
inductive Quant where
  | qstar
  | qplus
  | qopt
  | qrep (m : Nat) (n : Option Nat)
deriving Repr, DecidableEq

/-- Numeric value of a digit run. -/
def digitsVal (l : List Char) : Nat :=
  l.foldl (fun a c => a * 10 + (c.toNat - 48)) 0

/-- Recognize a quantifier at index i, returning it with the index just past
it; counted braces that do not form a valid quantifier are not recognized
(the brace is then an ordinary character, as in CPython). -/
def quantAt (inp : List Char) (i : Nat) : Option (Quant × Nat) :=
  match inp.get? i with
  | some '*' => some (.qstar, i + 1)
  | some '+' => some (.qplus, i + 1)
  | some '?' => some (.qopt, i + 1)
  | some '{' =>
      let ds1 := (inp.drop (i + 1)).takeWhile Char.isDigit
      let j := i + 1 + ds1.length
      match inp.get? j with
      | some '}' => if ds1.isEmpty then none
                    else some (.qrep (digitsVal ds1) (some (digitsVal ds1)), j + 1)
      | some ',' =>
          let ds2 := (inp.drop (j + 1)).takeWhile Char.isDigit
          let k := j + 1 + ds2.length
          match inp.get? k with
          | some '}' =>
              if ds1.isEmpty && ds2.isEmpty then none
              else some (.qrep (digitsVal ds1) (if ds2.isEmpty then none else some (digitsVal ds2)), k + 1)
          | _ => none
      | _ => none
  | _ => none

/-- Concatenation of n copies of r. -/
def catN (r : Regex) : Nat → Regex
  | 0 => .eps
  | n + 1 => .cat r (catN r n)

/-- Concatenation of n optional copies of r (greedy or lazy). -/
def optChain (lzy : Bool) (r : Regex) : Nat → Regex
  | 0 => .eps
  | n + 1 => .cat (if lzy then .alt .eps r else .alt r .eps) (optChain lzy r n)

/-- Desugar a quantifier applied to r; qpos is the quantifier's index for
diagnostics. -/
def quantRegex (lzy : Bool) (r : Regex) (q : Quant) (qpos : Nat) : Except String Regex :=
  match q with
  | .qstar => .ok (if lzy then .lstar r else .star r)
  | .qplus => .ok (.cat r (if lzy then .lstar r else .star r))
  | .qopt => .ok (if lzy then .alt .eps r else .alt r .eps)
  | .qrep m n =>
      match n with
      | none => .ok (.cat (catN r m) (if lzy then .lstar r else .star r))
      | some nn =>
          if nn < m then .error (msgMinMax qpos)
          else .ok (.cat (catN r m) (optChain lzy r (nn - m)))

/-- Apply an optional quantifier (with optional lazy marker) following an
atom, rejecting a second immediately following quantifier as CPython does. -/
def applyQuant (inp : List Char) (r : Regex) (st : PSt) : Except String (Regex × PSt) :=
  match quantAt inp st.i with
  | none => .ok (r, st)
  | some (q, j) =>
      let p := if inp.get? j = some '?' then (true, j + 1) else (false, j)
      match quantAt inp p.2 with
      | some _ => .error (msgMultipleRepeat p.2)
      | none =>
          match quantRegex p.1 r q st.i with
          | .error e => .error e
          | .ok r2 => .ok (r2, ⟨p.2, st.ng, st.names⟩)

/-- Concatenation of a parsed item list. -/
def mkCat : List Regex → Regex
  | [] => .eps
  | [r] => r
  | r :: rs => .cat r (mkCat rs)

/-- Nonterminal selector for the recursive-descent parser. -/
inductive PTag where
  | alt
  | cat (acc : List Regex)
  | rep
  | atom

/-- Recursive-descent parser over the pattern characters: alternation over
concatenation over repeated atoms, with capturing, non-capturing and named
groups; fuel bounds the recursion depth. -/
def parseF (inp : List Char) : Nat → PTag → PSt → Except String (Regex × PSt)
  | 0, _, _ => .error "pattern too deeply nested"
  | fuel + 1, .alt, st => do
      let (r1, st1) ← parseF inp fuel (.cat []) st
      match inp.get? st1.i with
      | some '|' => do
          let (r2, st2) ← parseF inp fuel .alt ⟨st1.i + 1, st1.ng, st1.names⟩
          .ok (.alt r1 r2, st2)
      | _ => .ok (r1, st1)
  | fuel + 1, .cat acc, st =>
      match inp.get? st.i with
      | none => .ok (mkCat acc.reverse, st)
      | some ')' => .ok (mkCat acc.reverse, st)
      | some '|' => .ok (mkCat acc.reverse, st)
      | some _ => do
          let (r, st1) ← parseF inp fuel .rep st
          parseF inp fuel (.cat (r :: acc)) st1
  | fuel + 1, .rep, st => do
      let (r, st1) ← parseF inp fuel .atom st
      applyQuant inp r st1
  | fuel + 1, .atom, st =>
      match inp.get? st.i with
      | none => .error (msgUnexpectedEnd st.i)
      | some c =>
        if c = '(' then
          match inp.get? (st.i + 1) with
          | some '?' =>
            match inp.get? (st.i + 2) with
            | some ':' => do
                let (body, st2) ← parseF inp fuel .alt ⟨st.i + 3, st.ng, st.names⟩
                if inp.get? st2.i = some ')' then .ok (body, ⟨st2.i + 1, st2.ng, st2.names⟩)
                else .error (msgMissingParen st.i)
            | some 'P' =>
                if inp.get? (st.i + 3) = some '<' then
                  let nameChars := (inp.drop (st.i + 4)).takeWhile (fun ch => ch ≠ '>')
                  let j := st.i + 4 + nameChars.length
                  if inp.get? j = some '>' then
                    if nameChars.isEmpty then .error (msgMissingGroupName (st.i + 4))
                    else
                      let idx := st.ng + 1
                      do
                        let (body, st2) ←
                          parseF inp fuel .alt ⟨j + 1, idx, st.names ++ [(String.mk nameChars, idx)]⟩
                        if inp.get? st2.i = some ')' then
                          .ok (.group idx body, ⟨st2.i + 1, st2.ng, st2.names⟩)
                        else .error (msgMissingParen st.i)
                  else .error (msgMissingGt (st.i + 4))
                else .error (msgUnknownExtP (st.i + 1))
            | _ => .error (msgUnsupportedExt (st.i + 2))
          | _ =>
              let idx := st.ng + 1
              do
                let (body, st2) ← parseF inp fuel .alt ⟨st.i + 1, idx, st.names⟩
                if inp.get? st2.i = some ')' then
                  .ok (.group idx body, ⟨st2.i + 1, st2.ng, st2.names⟩)
                else .error (msgMissingParen st.i)
        else if c = ')' then .error (msgUnbalanced st.i)
        else if c = '*' || c = '+' || c = '?' then .error (msgNothingToRepeat st.i)
        else if c = '[' then
          match parseCls inp st.i with
          | .error e => .error e
          | .ok (r, j) => .ok (r, ⟨j, st.ng, st.names⟩)
        else if c = '\\' then
          match inp.get? (st.i + 1) with
          | none => .error "bad escape (end of pattern)"
          | some d =>
              if d.isDigit then .error (msgInvalidGroupRef d (st.i + 1))
              else .ok (parseEsc d, ⟨st.i + 2, st.ng, st.names⟩)
        else if c = '^' then .ok (.bol, ⟨st.i + 1, st.ng, st.names⟩)
        else if c = '$' then .ok (.eol, ⟨st.i + 1, st.ng, st.names⟩)
        else if c = '.' then .ok (.dot, ⟨st.i + 1, st.ng, st.names⟩)
        else .ok (.chr c, ⟨st.i + 1, st.ng, st.names⟩)

/-- Model of re.compile: parse the whole pattern, reporting the engine's
diagnostic on failure. -/
def Re.compile (pattern : String) : Except String Compiled :=
  let inp := pattern.data
  match parseF inp (inp.length * 4 + 8) .alt ⟨0, 0, []⟩ with
  | .error e => .error e
  | .ok (r, st) =>
      if st.i < inp.length then .error (msgUnbalanced st.i)
      else .ok ⟨r, st.ng, st.names⟩

/-! ## Highlighter (colorize_matches, src lines 29-57) -/

/-- Token of the rendered output: an ordinary text character, or one of the
inserted start/end color markers.  The Python code splices the ANSI marker
strings into one flat string; tokenizing the inserted markers keeps them
identifiable so that "stripping all inserted markers" is well defined. -/
inductive Tok where
  | ch (c : Char)
  | mark (code : String)
deriving Repr, DecidableEq

/-- Rendering loop of colorize_matches (src lines 41-55): for each match, the
unmatched slice since the end of the previous match, then the matched slice
wrapped in the color marker pair; after the last match the remaining tail.
Also counts the matches, mirroring match_count.  last is last_end. -/
def renderLoop (text : List Char) (color : String) : List PyMatch → Nat → List Tok × Nat
  | [], last => ((text.drop last).map Tok.ch, 0)
  | m :: ms, last =>
      let rest := renderLoop text color ms m.stop
      ((sliceC text last m.start).map Tok.ch
         ++ Tok.mark color :: ((sliceC text m.start m.stop).map Tok.ch ++ [Tok.mark Colors.RESET])
         ++ rest.1,
       rest.2 + 1)

/-- Result of colorize_matches: the triple (None, error message, None) on
compile failure, or (rendered text, match count, match list) on success. -/
inductive ColorizeResult where
  | err (msg : String)
  | ok (rendered : List Tok) (matchCount : Nat) (allMatches : List PyMatch)
deriving Repr, DecidableEq

/-- Model of colorize_matches (src lines 29-57): compile the pattern; on
re.error return the diagnostic (prefixed "Regex error: ") with no rendered
output; otherwise render every match of finditer wrapped in markers. -/
def colorize_matches (text pattern : String) (color : String := Colors.RED) : ColorizeResult :=
  match Re.compile pattern with
  | .error e => .err ("Regex error: " ++ e)
  | .ok c =>
      let ms := Re.finditer c text
      let out := renderLoop text.data color ms 0
      .ok out.1 out.2 ms

/-- Character kept by stripping: marker tokens are dropped. -/
def stripTok : Tok → Option Char
  | .ch c => some c
  | .mark _ => none

/-- Strip all inserted markers from a rendered text, keeping the ordinary
characters. -/
def stripMarkers (ts : List Tok) : String :=
  String.mk (ts.filterMap stripTok)

/-! ## Group Inspector (show_captured_groups, src lines 59-93) -/

/-- groupindex of a pattern as resolved by show_captured_groups (src lines
68-76): recompile the pattern; on re.error treat the name mapping as empty. -/
def giOf (pattern : String) : List (String × Nat) :=
  match Re.compile pattern with
  | .ok c => c.groupindex
  | .error _ => []

/-- Declared names mapped to a group index, in declaration order (the
group_names defaultdict of src lines 70-74). -/
def namesFor (gi : List (String × Nat)) (idx : Nat) : List String :=
  (gi.filter (fun x => x.2 == idx)).map (fun x => x.1)

/-- Printed line for one captured group (src lines 85-88): index, optional
name aliases, and the value — rendered as None when the value is falsy,
i.e. both for a non-participating group and for an empty-string match. -/
def groupLine (idx : Nat) (names : List String) (v : Option String) : String :=
  let nameStr := if names.isEmpty then "" else " (" ++ String.intercalate ", " names ++ ")"
  let vs := match v with
    | some s => if s.isEmpty then "None" else s
    | none => "None"
  "    Group " ++ toString idx ++ nameStr ++ ": " ++ Colors.GREEN ++ vs ++ Colors.RESET

/-- Printed lines for one match record (src lines 79-92): position, full
match, then either the captured-group lines or the explicit no-groups line,
then a blank line. -/
def matchBlock (gi : List (String × Nat)) (i : Nat) (m : PyMatch) : List String :=
  (Colors.YELLOW ++ "Match " ++ toString i ++ " at position [" ++ toString m.start
      ++ "-" ++ toString m.stop ++ "]:" ++ Colors.RESET)
  :: ("  Full match: " ++ Colors.GREEN ++ m.full ++ Colors.RESET)
  :: ((if m.groups.isEmpty then
        ["  " ++ Colors.BLUE ++ "No captured groups in pattern" ++ Colors.RESET]
      else
        "  Captured groups:" ::
          (List.range' 1 m.groups.length).map
            (fun idx => groupLine idx (namesFor gi idx) ((m.groups.get? (idx - 1)).getD none)))
      ++ [""])

/-- Blocks for all match records, numbered from i (the enumerate of src
line 78). -/
def matchBlocks (gi : List (String × Nat)) : Nat → List PyMatch → List String
  | _, [] => []
  | i, m :: ms => matchBlock gi i m ++ matchBlocks gi (i + 1) ms

/-- Report body for a given resolved name mapping: header, per-match blocks,
and the closing separator. -/
def showGroupsWith (gi : List (String × Nat)) (ms : List PyMatch) (pattern : String) :
    List String :=
  ("\n" ++ Colors.CYAN ++ "===== Captured Groups for Pattern: " ++ pattern ++ " =====")
  :: ("Total matches found: " ++ toString ms.length ++ Colors.RESET ++ "\n")
  :: (matchBlocks gi 1 ms
      ++ [Colors.CYAN ++ String.mk (List.replicate 60 '=') ++ Colors.RESET])

/-- Model of show_captured_groups (src lines 59-93) as the list of printed
lines: the no-matches message for an empty match list, otherwise the full
report with names resolved by recompiling the pattern. -/
def show_captured_groups (ms : List PyMatch) (pattern : String) : List String :=
  if ms.isEmpty then [Colors.YELLOW ++ "No matches found for pattern" ++ Colors.RESET]
  else showGroupsWith (giOf pattern) ms pattern

/-! ## Interactive loop (main, src lines 156-208) -/

/-- Python default str.strip character test (ASCII whitespace). -/
def isPySpace (c : Char) : Bool :=
  c = ' ' || c = '\t' || c = '\n' || c = '\r' || c = '\x0b' || c = '\x0c'

/-- Removal of trailing characters satisfying p. -/
def rstripC (p : Char → Bool) : List Char → List Char
  | [] => []
  | c :: cs =>
      let r := rstripC p cs
      if r.isEmpty && p c then [] else c :: r

/-- Model of Python str.strip(): drop leading and trailing whitespace. -/
def pyStrip (s : String) : String :=
  String.mk (rstripC isPySpace (s.data.dropWhile isPySpace))

/-- Session state retained across loop iterations (src lines 158-159):
last_valid_pattern and last_match_objects. -/
structure LoopState where
  last_valid_pattern : Option String
  last_match_objects : List PyMatch
deriving Repr, DecidableEq

/-- One user-visible output of a loop iteration: a printed line, or the
rendered highlighted text. -/
inductive Out where
  | text (s : String)
  | render (toks : List Tok)
deriving Repr, DecidableEq

/-- The 50-dash separator line. -/
def dashLine : String := String.mk (List.replicate 50 '-')

/-- Message printed by the :groups command when no valid pattern is retained
(src line 176). -/
def noPrevLine : String :=
  Colors.YELLOW ++ "No previous valid pattern available" ++ Colors.RESET

/-- Processing of one non-empty pattern string by the loop body (src lines
171-198): the :groups command reports against the retained state; any other
input is evaluated by colorize_matches; on success the rendered report is
printed and the state committed; on failure the loop prints the first tuple
element — the Python value None, hence the literal text "None" — and leaves
the state unchanged. -/
def processPattern (text color : String) (st : LoopState) (pattern : String) :
    LoopState × List Out :=
  if pattern = ":groups" then
    (st,
      match st.last_valid_pattern with
      | some p =>
          if p.isEmpty then [Out.text noPrevLine]
          else (show_captured_groups st.last_match_objects p).map Out.text
      | none => [Out.text noPrevLine])
  else
    match colorize_matches text pattern color with
    | .err _ => (st, [Out.text "None"])
    | .ok rendered cnt ms =>
        (⟨some pattern, ms⟩,
         [Out.text ("\n" ++ dashLine),
          Out.text ("Matches found: " ++ Colors.YELLOW ++ toString cnt ++ Colors.RESET),
          Out.text ("Pattern: " ++ Colors.CYAN ++ pattern ++ Colors.RESET),
          Out.text dashLine,
          Out.render rendered,
          Out.text dashLine])

/-- One iteration of the interactive loop on a line read at the pattern
prompt (src lines 166-198): the line is stripped; an empty result re-prompts
with no state change and no output. -/
def loopStep (text color : String) (st : LoopState) (line : String) : LoopState × List Out :=
  let pattern := pyStrip line
  if pattern.isEmpty then (st, []) else processPattern text color st pattern

/-- The loop run over a list of prompt lines, threading the session state. -/
def runLoop (text color : String) : LoopState → List String → LoopState
  | st, [] => st
  | st, l :: ls => runLoop text color (loopStep text color st l).1 ls

/-- The whole interactive session of main: initial state with no retained
pattern (src lines 158-159); a truthy initial CLI pattern is processed first,
unstripped (src lines 157, 166); then the prompt lines. -/
def mainLoop (text color : String) (initPat : Option String) (lines : List String) : LoopState :=
  let st0 : LoopState := ⟨none, []⟩
  let st1 := match initPat with
    | some p => if p.isEmpty then st0 else (processPattern text color st0 p).1
    | none => st0
  runLoop text color st1 lines

/-- Match records obtained by compiling a pattern and fully scanning the
text; empty when the pattern does not compile. -/
def recordsOf (text pattern : String) : List PyMatch :=
  match Re.compile pattern with
  | .ok c => Re.finditer c text
  | .error _ => []

/-- Mutual consistency of the retained session state (spec section 3): both
unset, or the match records are exactly those of compiling and fully
scanning the retained pattern against the text. -/
def consistentState (text : String) (st : LoopState) : Prop :=
  (st.last_valid_pattern = none ∧ st.last_match_objects = []) ∨
  (∃ p c, st.last_valid_pattern = some p ∧ Re.compile p = .ok c ∧
    st.last_match_objects = Re.finditer c text)

/-! ## Engine lemmas: match spans are well formed and the scan advances -/

lemma starIter_bounds {f : Nat → List (Nat × Caps)} {L : Nat}
    (hf : ∀ p x, x ∈ f p → p ≤ x.1 ∧ (p ≤ L → x.1 ≤ L)) :
    ∀ fuel pos x, x ∈ starIter f fuel pos → pos ≤ x.1 ∧ (pos ≤ L → x.1 ≤ L) := by
  intro fuel
  induction fuel with
  | zero =>
      intro pos x hx
      simp only [starIter, List.mem_singleton] at hx
      subst hx
      exact ⟨le_refl _, fun h => h⟩
  | succ fuel ih =>
      intro pos x hx
      simp only [starIter, List.mem_append, List.mem_flatMap, List.mem_filter,
        List.mem_map, List.mem_singleton, decide_eq_true_eq] at hx
      rcases hx with ⟨y, ⟨hyf, _⟩, z, hz, hzx⟩ | hx
      · have h1 := hf pos y hyf
        have h2 := ih y.1 z hz
        subst hzx
        exact ⟨le_trans h1.1 h2.1, fun h => h2.2 (h1.2 h)⟩
      · subst hx
        exact ⟨le_refl _, fun h => h⟩

lemma starIterL_bounds {f : Nat → List (Nat × Caps)} {L : Nat}
    (hf : ∀ p x, x ∈ f p → p ≤ x.1 ∧ (p ≤ L → x.1 ≤ L)) :
    ∀ fuel pos x, x ∈ starIterL f fuel pos → pos ≤ x.1 ∧ (pos ≤ L → x.1 ≤ L) := by
  intro fuel
  induction fuel with
  | zero =>
      intro pos x hx
      simp only [starIterL, List.mem_singleton] at hx
      subst hx
      exact ⟨le_refl _, fun h => h⟩
  | succ fuel ih =>
      intro pos x hx
      simp only [starIterL, List.mem_cons, List.mem_flatMap, List.mem_filter,
        List.mem_map, decide_eq_true_eq] at hx
      rcases hx with hx | ⟨y, ⟨hyf, _⟩, z, hz, hzx⟩
      · subst hx
        exact ⟨le_refl _, fun h => h⟩
      · have h1 := hf pos y hyf
        have h2 := ih y.1 z hz
        subst hzx
        exact ⟨le_trans h1.1 h2.1, fun h => h2.2 (h1.2 h)⟩

lemma mtch_bounds (text : List Char) :
    ∀ fuel r pos x, x ∈ mtch text fuel r pos →
      pos ≤ x.1 ∧ (pos ≤ text.length → x.1 ≤ text.length) := by
  intro fuel
  induction fuel with
  | zero => intro r pos x hx; simp [mtch] at hx
  | succ fuel ih =>
      intro r pos x hx
      cases r with
      | eps =>
          simp only [mtch, List.mem_singleton] at hx
          subst hx; exact ⟨le_refl _, fun h => h⟩
      | chr c =>
          simp only [mtch] at hx
          split at hx
          · next hc =>
              simp only [List.mem_singleton] at hx
              subst hx
              simp only [Bool.and_eq_true, decide_eq_true_eq] at hc
              exact ⟨Nat.le_succ _, fun _ => hc.1⟩
          · simp at hx
      | dot =>
          simp only [mtch] at hx
          split at hx
          · next hc =>
              simp only [List.mem_singleton] at hx
              subst hx
              simp only [Bool.and_eq_true, decide_eq_true_eq] at hc
              exact ⟨Nat.le_succ _, fun _ => hc.1⟩
          · simp at hx
      | cls neg rs =>
          simp only [mtch] at hx
          split at hx
          · next hc =>
              simp only [List.mem_singleton] at hx
              subst hx
              simp only [Bool.and_eq_true, decide_eq_true_eq] at hc
              exact ⟨Nat.le_succ _, fun _ => hc.1⟩
          · simp at hx
      | alt a b =>
          simp only [mtch, List.mem_append] at hx
          rcases hx with hx | hx
          · exact ih a pos x hx
          · exact ih b pos x hx
      | cat a b =>
          simp only [mtch, List.mem_flatMap, List.mem_map] at hx
          rcases hx with ⟨y, hy, z, hz, hzx⟩
          have h1 := ih a pos y hy
          have h2 := ih b y.1 z hz
          subst hzx
          exact ⟨le_trans h1.1 h2.1, fun h => h2.2 (h1.2 h)⟩
      | star a =>
          simp only [mtch] at hx
          exact starIter_bounds (fun p y hy => ih a p y hy) _ pos x hx
      | lstar a =>
          simp only [mtch] at hx
          exact starIterL_bounds (fun p y hy => ih a p y hy) _ pos x hx
      | group i a =>
          simp only [mtch, List.mem_map] at hx
          rcases hx with ⟨y, hy, hyx⟩
          have h1 := ih a pos y hy
          subst hyx
          exact h1
      | bol =>
          simp only [mtch] at hx
          split at hx
          · simp only [List.mem_singleton] at hx
            subst hx; exact ⟨le_refl _, fun h => h⟩
          · simp at hx
      | eol =>
          simp only [mtch] at hx
          split at hx
          · simp only [List.mem_singleton] at hx
            subst hx; exact ⟨le_refl _, fun h => h⟩
          · simp at hx
      | bos =>
          simp only [mtch] at hx
          split at hx
          · simp only [List.mem_singleton] at hx
            subst hx; exact ⟨le_refl _, fun h => h⟩
          · simp at hx
      | eos =>
          simp only [mtch] at hx
          split at hx
          · simp only [List.mem_singleton] at hx
            subst hx; exact ⟨le_refl _, fun h => h⟩
          · simp at hx
      | wordb =>
          simp only [mtch] at hx
          split at hx
          · simp only [List.mem_singleton] at hx
            subst hx; exact ⟨le_refl _, fun h => h⟩
          · simp at hx
      | nwordb =>
          simp only [mtch] at hx
          split at hx
          · simp only [List.mem_singleton] at hx
            subst hx; exact ⟨le_refl _, fun h => h⟩
          · simp at hx

lemma mtchAt_bounds (text : List Char) (r : Regex) (pos : Nat) (x : Nat × Caps)
    (hx : x ∈ mtchAt text r pos) :
    pos ≤ x.1 ∧ (pos ≤ text.length → x.1 ≤ text.length) :=
  mtch_bounds text (rdepth r) r pos x hx

lemma searchAux_some (text : List Char) (r : Regex) :
    ∀ fuel pos s e g, searchAux text r fuel pos = some (s, e, g) →
      pos ≤ s ∧ s < pos + fuel ∧ s ≤ e ∧ (s ≤ text.length → e ≤ text.length) := by
  intro fuel
  induction fuel with
  | zero => intro pos s e g h; simp [searchAux] at h
  | succ fuel ih =>
      intro pos s e g h
      simp only [searchAux] at h
      cases hh : (mtchAt text r pos).head? with
      | some x =>
          rw [hh] at h
          have hmem := List.mem_of_mem_head? hh
          have hb := mtchAt_bounds text r pos x hmem
          cases h
          exact ⟨le_refl _, by omega, hb.1, hb.2⟩
      | none =>
          rw [hh] at h
          have := ih (pos + 1) s e g h
          exact ⟨by omega, by omega, this.2.2.1, this.2.2.2⟩

lemma search_some (text : List Char) (r : Regex) (pos s e : Nat) (g : Caps)
    (h : search text r pos = some (s, e, g)) :
    pos ≤ s ∧ s ≤ text.length ∧ s ≤ e ∧ e ≤ text.length := by
  unfold search at h
  rcases hf : text.length + 1 - pos with _ | fuel
  · rw [hf] at h; simp [searchAux] at h
  · rw [hf] at h
    have hb := searchAux_some text r (fuel + 1) pos s e g h
    have hs : s ≤ text.length := by omega
    exact ⟨hb.1, hs, hb.2.2.1, hb.2.2.2 hs⟩

/-- Spans of a match list are well formed and chained from a lower bound:
each span starts at or after the bound, does not go backwards, and the next
spans chain from its end. -/
def spansOk : Nat → List PyMatch → Prop
  | _, [] => True
  | lb, m :: ms => lb ≤ m.start ∧ m.start ≤ m.stop ∧ spansOk m.stop ms

lemma spansOk_mono {a b : Nat} {ms : List PyMatch} (hab : a ≤ b) (h : spansOk b ms) :
    spansOk a ms := by
  cases ms with
  | nil => trivial
  | cons m ms => exact ⟨le_trans hab h.1, h.2.1, h.2.2⟩

lemma finditerAux_spansOk (text : List Char) (r : Regex) (ng : Nat) :
    ∀ fuel pos, spansOk pos (finditerAux text r ng fuel pos) := by
  intro fuel
  induction fuel with
  | zero => intro pos; simp [finditerAux, spansOk]
  | succ fuel ih =>
      intro pos
      simp only [finditerAux]
      cases hs : search text r pos with
      | none => simp [spansOk]
      | some x =>
          obtain ⟨s, e, g⟩ := x
          have hb := search_some text r pos s e g hs
          refine ⟨hb.1, hb.2.2.1, ?_⟩
          have htail := ih (if e = s then s + 1 else e)
          exact spansOk_mono (by simp only [mkMatch_stop]; split <;> omega) htail

lemma finditerAux_start_ge (text : List Char) (r : Regex) (ng : Nat) :
    ∀ fuel pos m, m ∈ finditerAux text r ng fuel pos → pos ≤ m.start := by
  intro fuel
  induction fuel with
  | zero => intro pos m hm; simp [finditerAux] at hm
  | succ fuel ih =>
      intro pos m hm
      simp only [finditerAux] at hm
      cases hs : search text r pos with
      | none => rw [hs] at hm; simp at hm
      | some x =>
          obtain ⟨s, e, g⟩ := x
          rw [hs] at hm
          have hb := search_some text r pos s e g hs
          rcases List.mem_cons.mp hm with hm | hm
          · subst hm; exact hb.1
          · have := ih _ m hm
            split at this <;> omega

lemma finditerAux_adjacent (text : List Char) (r : Regex) (ng : Nat) :
    ∀ fuel pos i m m', (finditerAux text r ng fuel pos).get? i = some m →
      (finditerAux text r ng fuel pos).get? (i + 1) = some m' →
      m.stop ≤ m'.start ∧ m.start < m'.start := by
  intro fuel
  induction fuel with
  | zero => intro pos i m m' hm hm'; simp [finditerAux] at hm
  | succ fuel ih =>
      intro pos i m m' hm hm'
      simp only [finditerAux] at hm hm'
      cases hs : search text r pos with
      | none => rw [hs] at hm; simp at hm
      | some x =>
          obtain ⟨s, e, g⟩ := x
          rw [hs] at hm hm'
          have hb := search_some text r pos s e g hs
          cases i with
          | zero =>
              simp only [List.get?] at hm hm'
              cases hm
              have hm'mem : m' ∈ finditerAux text r ng fuel (if e = s then s + 1 else e) :=
                List.get?_mem hm'
              have hge := finditerAux_start_ge text r ng fuel _ m' hm'mem
              refine ⟨?_, ?_⟩ <;> simp only [mkMatch_stop, mkMatch_start] <;>
                split at hge <;> omega
          | succ i =>
              simp only [List.get?] at hm hm'
              exact ih _ i m m' hm hm'

lemma finditerAux_length (text : List Char) (r : Regex) (ng : Nat) :
    ∀ fuel pos, (finditerAux text r ng fuel pos).length ≤ text.length + 1 - pos := by
  intro fuel
  induction fuel with
  | zero => intro pos; simp [finditerAux]
  | succ fuel ih =>
      intro pos
      simp only [finditerAux]
      cases hs : search text r pos with
      | none => simp
      | some x =>
          obtain ⟨s, e, g⟩ := x
          have hb := search_some text r pos s e g hs
          have htail := ih (if e = s then s + 1 else e)
          simp only [List.length_cons]
          rcases eq_or_ne e s with he | he
          · rw [if_pos he] at htail ⊢
            omega
          · rw [if_neg he] at htail ⊢
            omega

/-! ## Rendering lemmas: stripping markers recovers the text -/

lemma filterMap_stripTok_map_ch (l : List Char) :
    (l.map Tok.ch).filterMap stripTok = l := by
  induction l with
  | nil => rfl
  | cons c cs ih => simp [stripTok, ih]

lemma drop_eq_slice_append (text : List Char) (a b : Nat) (hab : a ≤ b) :
    text.drop a = sliceC text a b ++ text.drop b := by
  have h1 := List.take_append_drop (b - a) (text.drop a)
  rw [List.drop_drop] at h1
  have hb : a + (b - a) = b := by omega
  rw [hb] at h1
  exact h1.symm

lemma drop_decomp (text : List Char) (last s e : Nat) (h1 : last ≤ s) (h2 : s ≤ e) :
    text.drop last = sliceC text last s ++ (sliceC text s e ++ text.drop e) := by
  rw [drop_eq_slice_append text last s h1]
  rw [drop_eq_slice_append text s e h2]

lemma renderLoop_strip (text : List Char) (color : String) :
    ∀ ms last, spansOk last ms →
      ((renderLoop text color ms last).1).filterMap stripTok = text.drop last := by
  intro ms
  induction ms with
  | nil =>
      intro last _
      simp only [renderLoop]
      exact filterMap_stripTok_map_ch _
  | cons m ms ih =>
      intro last hok
      obtain ⟨h1, h2, hok'⟩ := hok
      simp only [renderLoop, List.filterMap_append, List.filterMap_cons]
      simp only [stripTok, filterMap_stripTok_map_ch]
      rw [ih m.stop hok']
      rw [drop_decomp text last m.start m.stop h1 h2]
      simp

lemma renderLoop_count (text : List Char) (color : String) :
    ∀ ms last, (renderLoop text color ms last).2 = ms.length := by
  intro ms
  induction ms with
  | nil => intro last; rfl
  | cons m ms ih => intro last; simp only [renderLoop, List.length_cons, ih]

lemma colorize_ok_inv (text pattern color : String) (r : List Tok) (cnt : Nat)
    (ms : List PyMatch) (h : colorize_matches text pattern color = .ok r cnt ms) :
    ∃ c, Re.compile pattern = .ok c ∧ ms = Re.finditer c text ∧
      r = (renderLoop text.data color (Re.finditer c text) 0).1 ∧
      cnt = (renderLoop text.data color (Re.finditer c text) 0).2 := by
  unfold colorize_matches at h
  cases hc : Re.compile pattern with
  | error e => rw [hc] at h; simp at h
  | ok c =>
      rw [hc] at h
      simp only [ColorizeResult.ok.injEq] at h
      exact ⟨c, rfl, h.2.2.symm, h.1.symm, h.2.1.symm⟩

lemma finditer_spansOk (c : Compiled) (text : String) :
    spansOk 0 (Re.finditer c text) :=
  finditerAux_spansOk text.data c.re c.ngroups (text.data.length + 2) 0

/-! ## Claim theorems: Highlighter -/

/-- C3: for every text T and every pattern P that compiles successfully,
stripping all inserted start/end color markers from the rendered text
returned by the highlighter yields exactly T. -/
theorem highlight_round_trip (text pattern color : String) (r : List Tok) (cnt : Nat)
    (ms : List PyMatch) (h : colorize_matches text pattern color = .ok r cnt ms) :
    stripMarkers r = text := by
  obtain ⟨c, _, _, hr, _⟩ := colorize_ok_inv text pattern color r cnt ms h
  subst hr
  unfold stripMarkers
  rw [renderLoop_strip text.data color (Re.finditer c text) 0 (finditer_spansOk c text)]
  rfl

/-- Witness for C3 at text "ab" and pattern "a". -/
theorem highlight_round_trip_witness :
    colorize_matches "ab" "a" Colors.RED =
      .ok [Tok.mark Colors.RED, Tok.ch 'a', Tok.mark Colors.RESET, Tok.ch 'b'] 1
        [⟨0, 1, "a", []⟩] ∧
    stripMarkers [Tok.mark Colors.RED, Tok.ch 'a', Tok.mark Colors.RESET, Tok.ch 'b'] = "ab" :=
  ⟨by decide,
   highlight_round_trip "ab" "a" Colors.RED
     [Tok.mark Colors.RED, Tok.ch 'a', Tok.mark Colors.RESET, Tok.ch 'b'] 1
     [⟨0, 1, "a", []⟩] (by decide)⟩

/-- C6: for every text and successfully compiling pattern, the records list
returned by the highlighter is non-overlapping and ordered: each record ends
at or before the next one starts, and starts strictly increase. -/
theorem highlight_nonoverlap_ordered (text pattern color : String) (r : List Tok)
    (cnt : Nat) (ms : List PyMatch)
    (h : colorize_matches text pattern color = .ok r cnt ms)
    (i : Nat) (m m' : PyMatch) (hm : ms.get? i = some m) (hm' : ms.get? (i + 1) = some m') :
    m.stop ≤ m'.start ∧ m.start < m'.start := by
  obtain ⟨c, _, hms, _, _⟩ := colorize_ok_inv text pattern color r cnt ms h
  subst hms
  exact finditerAux_adjacent text.data c.re c.ngroups (text.data.length + 2) 0 i m m' hm hm'

/-- Witness for C6 at text "aa" and pattern "a" with adjacent records. -/
theorem highlight_nonoverlap_ordered_witness :
    colorize_matches "aa" "a" Colors.RED =
      .ok [Tok.mark Colors.RED, Tok.ch 'a', Tok.mark Colors.RESET,
           Tok.mark Colors.RED, Tok.ch 'a', Tok.mark Colors.RESET] 2
        [⟨0, 1, "a", []⟩, ⟨1, 2, "a", []⟩] ∧
    (1 ≤ 1 ∧ 0 < 1) :=
  ⟨by decide,
   highlight_nonoverlap_ordered "aa" "a" Colors.RED
     [Tok.mark Colors.RED, Tok.ch 'a', Tok.mark Colors.RESET,
      Tok.mark Colors.RED, Tok.ch 'a', Tok.mark Colors.RESET] 2
     [⟨0, 1, "a", []⟩, ⟨1, 2, "a", []⟩] (by decide) 0
     ⟨0, 1, "a", []⟩ ⟨1, 2, "a", []⟩ (by decide) (by decide)⟩

/-- C7: the highlight scan terminates on finite input — the scan position
advances past zero-width matches, so the number of records is bounded by the
text length plus one — and on empty text with pattern "a*" it yields exactly
one zero-width match at span [0,0). -/
theorem highlight_scan_terminates :
    (∀ (text : String) (c : Compiled), (Re.finditer c text).length ≤ text.data.length + 1) ∧
    Re.compile "a*" = .ok ⟨.star (.chr 'a'), 0, []⟩ ∧
    Re.finditer ⟨.star (.chr 'a'), 0, []⟩ "" = [⟨0, 0, "", []⟩] := by
  refine ⟨?_, rfl, by decide⟩
  intro text c
  have := finditerAux_length text.data c.re c.ngroups (text.data.length + 2) 0
  simpa [Re.finditer] using this

/-- C8: for every text and pattern, the match count returned by the
highlighter equals the length of the returned records list. -/
theorem highlight_count_consistency (text pattern color : String) (r : List Tok)
    (cnt : Nat) (ms : List PyMatch)
    (h : colorize_matches text pattern color = .ok r cnt ms) :
    cnt = ms.length := by
  obtain ⟨c, _, hms, _, hcnt⟩ := colorize_ok_inv text pattern color r cnt ms h
  subst hms hcnt
  exact renderLoop_count text.data color (Re.finditer c text) 0

/-- Witness for C8 at text "ab" and pattern "b". -/
theorem highlight_count_consistency_witness :
    colorize_matches "ab" "b" Colors.RED =
      .ok [Tok.ch 'a', Tok.mark Colors.RED, Tok.ch 'b', Tok.mark Colors.RESET] 1
        [⟨1, 2, "b", []⟩] ∧
    1 = [(⟨1, 2, "b", []⟩ : PyMatch)].length :=
  ⟨by decide,
   highlight_count_consistency "ab" "b" Colors.RED
     [Tok.ch 'a', Tok.mark Colors.RED, Tok.ch 'b', Tok.mark Colors.RESET] 1
     [⟨1, 2, "b", []⟩] (by decide)⟩

/-! ## Loop lemmas -/

lemma compile_colon_groups : ∃ c, Re.compile ":groups" = .ok c := ⟨_, rfl⟩

lemma compile_empty : ∃ c, Re.compile "" = .ok c := ⟨_, rfl⟩

lemma loopStep_state_on_error (text color : String) (st : LoopState) (line e : String)
    (hc : Re.compile (pyStrip line) = .error e) :
    loopStep text color st line = (st, [Out.text "None"]) := by
  unfold loopStep
  by_cases hemp : (pyStrip line).isEmpty
  · exfalso
    have hnil : pyStrip line = "" := (String.isEmpty_iff _).mp hemp
    rw [hnil] at hc
    obtain ⟨c0, hc0⟩ := compile_empty
    rw [hc0] at hc
    exact Except.noConfusion hc
  · rw [if_neg hemp]
    by_cases hg : pyStrip line = ":groups"
    · exfalso
      rw [hg] at hc
      obtain ⟨c0, hc0⟩ := compile_colon_groups
      rw [hc0] at hc
      exact Except.noConfusion hc
    · unfold processPattern
      rw [if_neg hg]
      unfold colorize_matches
      rw [hc]

lemma processPattern_consistent (text color : String) (st : LoopState) (p : String)
    (h : consistentState text st) :
    consistentState text (processPattern text color st p).1 := by
  unfold processPattern
  by_cases hg : p = ":groups"
  · rw [if_pos hg]; exact h
  · rw [if_neg hg]
    cases hc : colorize_matches text p color with
    | err msg => exact h
    | ok r cnt ms =>
        obtain ⟨c, hcomp, hms, _, _⟩ := colorize_ok_inv text p color r cnt ms hc
        exact Or.inr ⟨p, c, rfl, hcomp, hms⟩

lemma loopStep_consistent (text color : String) (st : LoopState) (line : String)
    (h : consistentState text st) :
    consistentState text (loopStep text color st line).1 := by
  unfold loopStep
  by_cases hemp : (pyStrip line).isEmpty
  · rw [if_pos hemp]; exact h
  · rw [if_neg hemp]; exact processPattern_consistent text color st (pyStrip line) h

lemma runLoop_consistent (text color : String) :
    ∀ (lines : List String) (st : LoopState), consistentState text st →
      consistentState text (runLoop text color st lines) := by
  intro lines
  induction lines with
  | nil => intro st h; exact h
  | cons l ls ih =>
      intro st h
      exact ih _ (loopStep_consistent text color st l h)

/-! ## Claim theorems: session state -/

/-- C5: in every reachable state of the interactive loop, the retained match
records and the retained pattern are mutually consistent — both unset, or the
records are exactly the ordered match list obtained by compiling the retained
pattern and fully scanning the text buffer. -/
theorem session_state_invariant (text color : String) (initPat : Option String)
    (lines : List String) :
    consistentState text (mainLoop text color initPat lines) := by
  unfold mainLoop
  apply runLoop_consistent
  have h0 : consistentState text ⟨none, []⟩ := Or.inl ⟨rfl, rfl⟩
  cases initPat with
  | none => exact h0
  | some p =>
      by_cases hp : p.isEmpty
      · simp only [hp, if_true]
        exact h0
      · simp only [hp, if_false]
        exact processPattern_consistent text color ⟨none, []⟩ p h0

/-- C4: a pattern that fails to compile leaves the previously committed
session state unchanged, and a subsequent :groups command still reports
against the prior successful match set. -/
theorem error_isolation (text color : String) (st : LoopState) (line e : String)
    (hc : Re.compile (pyStrip line) = .error e) :
    (loopStep text color st line).1 = st ∧
    (loopStep text color (loopStep text color st line).1 ":groups").2 =
      (loopStep text color st ":groups").2 := by
  have h1 : (loopStep text color st line).1 = st := by
    rw [loopStep_state_on_error text color st line e hc]
  exact ⟨h1, by rw [h1]⟩

/-- Witness for C4: pattern "(" after a committed pattern "a" on text "ab". -/
theorem error_isolation_witness :
    Re.compile (pyStrip "(") = .error "missing ), unterminated subpattern at position 0" ∧
    (loopStep "ab" Colors.RED ⟨some "a", [⟨0, 1, "a", []⟩]⟩ "(").1 =
      ⟨some "a", [⟨0, 1, "a", []⟩]⟩ :=
  ⟨rfl,
   (error_isolation "ab" Colors.RED ⟨some "a", [⟨0, 1, "a", []⟩]⟩ "("
     "missing ), unterminated subpattern at position 0" rfl).1⟩

/-! ## Strip lemmas for the prompt input -/

/-- No surrounding whitespace: the first and last characters, when they
exist, are not stripped characters. -/
def noEdgeSpace (s : String) : Prop :=
  (∀ c, s.data.head? = some c → isPySpace c = false) ∧
  (∀ c, s.data.getLast? = some c → isPySpace c = false)

lemma head?_dropWhile_false (p : Char → Bool) :
    ∀ (l : List Char) (c : Char), (l.dropWhile p).head? = some c → p c = false := by
  intro l
  induction l with
  | nil => intro c h; simp [List.dropWhile] at h
  | cons a l ih =>
      intro c h
      rw [List.dropWhile_cons] at h
      by_cases ha : p a
      · rw [if_pos ha] at h
        exact ih c h
      · rw [if_neg ha] at h
        simp only [List.head?_cons, Option.some.injEq] at h
        subst h
        exact Bool.not_eq_true _ ▸ (by simpa using ha)

lemma rstripC_head (p : Char → Bool) :
    ∀ (l : List Char) (c : Char), (rstripC p l).head? = some c → l.head? = some c := by
  intro l
  cases l with
  | nil => intro c h; simp [rstripC] at h
  | cons a l =>
      intro c h
      simp only [rstripC] at h
      split at h
      · simp at h
      · simp only [List.head?_cons, Option.some.injEq] at h ⊢
        exact h

lemma rstripC_getLast (p : Char → Bool) :
    ∀ (l : List Char) (c : Char), (rstripC p l).getLast? = some c → p c = false := by
  intro l
  induction l with
  | nil => intro c h; simp [rstripC] at h
  | cons a l ih =>
      intro c h
      simp only [rstripC] at h
      split at h
      · simp at h
      · next hcond =>
          cases hr : rstripC p l with
          | nil =>
              rw [hr] at h hcond
              simp only [List.getLast?_singleton, Option.some.injEq] at h
              subst h
              simpa using hcond
          | cons b r =>
              rw [hr] at h
              rw [List.getLast?_cons_cons] at h
              rw [← hr] at h
              exact ih c h

lemma pyStrip_all_space (line : String) (h : ∀ c ∈ line.data, isPySpace c = true) :
    pyStrip line = "" := by
  unfold pyStrip
  have hd : line.data.dropWhile isPySpace = [] := by
    rw [List.dropWhile_eq_nil_iff]
    exact fun x hx => h x hx
  rw [hd]
  rfl

/-- C10: lines at the pattern prompt are stripped of surrounding whitespace
before evaluation — a whitespace-only line is treated as empty input (no
output, no state change, no highlighter invocation), a committed pattern is
always the stripped line, and a stripped line never retains surrounding
whitespace. -/
theorem prompt_strip_behavior :
    (∀ (text color : String) (st : LoopState) (line : String),
        (∀ c ∈ line.data, isPySpace c = true) → loopStep text color st line = (st, [])) ∧
    (∀ (text color : String) (st : LoopState) (line : String),
        (loopStep text color st line).1.last_valid_pattern = st.last_valid_pattern ∨
        (loopStep text color st line).1.last_valid_pattern = some (pyStrip line)) ∧
    (∀ line : String, noEdgeSpace (pyStrip line)) := by
  refine ⟨?_, ?_, ?_⟩
  · intro text color st line h
    unfold loopStep
    rw [pyStrip_all_space line h]
    rfl
  · intro text color st line
    unfold loopStep
    by_cases hemp : (pyStrip line).isEmpty
    · rw [if_pos hemp]; exact Or.inl rfl
    · rw [if_neg hemp]
      unfold processPattern
      by_cases hg : pyStrip line = ":groups"
      · rw [if_pos hg]; exact Or.inl rfl
      · rw [if_neg hg]
        cases hc : colorize_matches text (pyStrip line) color with
        | err msg => exact Or.inl rfl
        | ok r cnt ms => exact Or.inr rfl
  · intro line
    constructor
    · intro c h
      have h1 : (rstripC isPySpace (line.data.dropWhile isPySpace)).head? = some c := h
      have h2 := rstripC_head isPySpace _ c h1
      exact head?_dropWhile_false isPySpace _ c h2
    · intro c h
      exact rstripC_getLast isPySpace _ c h

/-- Witness for C10 at a whitespace-only line, applying the stripped-input
part of the theorem at concrete inputs. -/
theorem prompt_strip_behavior_witness :
    loopStep "ab" Colors.RED ⟨some "a", [⟨0, 1, "a", []⟩]⟩ " \t " =
      (⟨some "a", [⟨0, 1, "a", []⟩]⟩, []) :=
  prompt_strip_behavior.1 "ab" Colors.RED ⟨some "a", [⟨0, 1, "a", []⟩]⟩ " \t " (by decide)

/-! ## Claim theorems: Group Inspector -/

/-- C9: when the pattern fails to recompile while the Group Inspector
resolves group names, the name mapping is treated as empty — the report is
the one built with no aliases — and the report is still produced rather than
failing as a whole. -/
theorem groups_name_fallback (ms : List PyMatch) (pattern e : String)
    (hc : Re.compile pattern = .error e) (hne : ms ≠ []) :
    show_captured_groups ms pattern = showGroupsWith [] ms pattern ∧
    show_captured_groups ms pattern ≠ [] := by
  have hgi : giOf pattern = [] := by unfold giOf; rw [hc]
  have hemp : ms.isEmpty = false := by
    cases ms with
    | nil => exact absurd rfl hne
    | cons a as => rfl
  constructor
  · unfold show_captured_groups
    simp only [hemp, Bool.false_eq_true, if_false, hgi]
  · unfold show_captured_groups
    simp only [hemp, Bool.false_eq_true, if_false]
    unfold showGroupsWith
    simp

/-- Witness for C9: a malformed retained pattern "(" with one retained
match record. -/
theorem groups_name_fallback_witness :
    Re.compile "(" = .error "missing ), unterminated subpattern at position 0" ∧
    ([(⟨0, 1, "x", [some "x"]⟩ : PyMatch)] ≠ []) ∧
    show_captured_groups [⟨0, 1, "x", [some "x"]⟩] "(" =
      showGroupsWith [] [⟨0, 1, "x", [some "x"]⟩] "(" ∧
    show_captured_groups [⟨0, 1, "x", [some "x"]⟩] "(" ≠ [] :=
  ⟨rfl, by decide,
   groups_name_fallback [⟨0, 1, "x", [some "x"]⟩] "("
     "missing ), unterminated subpattern at position 0" rfl (by decide)⟩

lemma groupLine_mem_matchBlock (gi : List (String × Nat)) (i : Nat) (m : PyMatch)
    (idx : Nat) (v : Option String) (hv : m.groups.get? (idx - 1) = some v)
    (hidx : 1 ≤ idx) :
    groupLine idx (namesFor gi idx) v ∈ matchBlock gi i m := by
  have hlen : idx - 1 < m.groups.length := by
    rcases List.get?_eq_some.mp hv with ⟨h, _⟩
    exact h
  have hne : m.groups.isEmpty = false := by
    cases hgg : m.groups with
    | nil => rw [hgg] at hlen; simp at hlen
    | cons a as => rfl
  unfold matchBlock
  simp only [hne, Bool.false_eq_true, if_false]
  refine List.mem_cons_of_mem _ (List.mem_cons_of_mem _
    (List.mem_append_left _ (List.mem_cons_of_mem _ ?_)))
  rw [List.mem_map]
  refine ⟨idx, ?_, ?_⟩
  · rw [List.mem_range'_1]
    exact ⟨hidx, by omega⟩
  · rw [hv]
    rfl

lemma mem_matchBlocks (gi : List (String × Nat)) (x : String) (m : PyMatch)
    (hx : ∀ j, x ∈ matchBlock gi j m) :
    ∀ (ms : List PyMatch) (i : Nat), m ∈ ms → x ∈ matchBlocks gi i ms := by
  intro ms
  induction ms with
  | nil => intro i h; simp at h
  | cons a as ih =>
      intro i h
      unfold matchBlocks
      rcases List.mem_cons.mp h with h | h
      · subst h; exact List.mem_append_left _ (hx i)
      · exact List.mem_append_right _ (ih (i + 1) h)

/-- C2 (amended): for every match record and capturing-group index 1..N, the
Group Inspector reports a group line carrying the group's value, and a group
that did not participate is rendered with the marker None — but that marker
is not distinct from the rendering of a group that matched the empty string,
which produces the same line. -/
theorem group_inspector_reports (ms : List PyMatch) (pattern : String) (m : PyMatch)
    (idx : Nat) (v : Option String) (hm : m ∈ ms)
    (hv : m.groups.get? (idx - 1) = some v) (hidx : 1 ≤ idx) :
    groupLine idx (namesFor (giOf pattern) idx) v ∈ show_captured_groups ms pattern ∧
    ((v = none ∨ v = some "") →
      groupLine idx (namesFor (giOf pattern) idx) v =
        groupLine idx (namesFor (giOf pattern) idx) none) := by
  constructor
  · have hne : ms.isEmpty = false := by
      cases ms with
      | nil => simp at hm
      | cons a as => rfl
    unfold show_captured_groups
    simp only [hne, Bool.false_eq_true, if_false]
    unfold showGroupsWith
    refine List.mem_cons_of_mem _ (List.mem_cons_of_mem _ (List.mem_append_left _ ?_))
    exact mem_matchBlocks _ _ m
      (fun j => groupLine_mem_matchBlock (giOf pattern) j m idx v hv hidx) ms 1 hm
  · intro hval
    rcases hval with h | h
    · rw [h]
    · rw [h]
      rfl

/-- Witness for the amended C2 at a non-participating group of the pattern
with two alternative groups. -/
theorem group_inspector_reports_witness :
    ((⟨0, 1, "b", [none, some "b"]⟩ : PyMatch) ∈
      [(⟨0, 1, "b", [none, some "b"]⟩ : PyMatch)]) ∧
    groupLine 1 (namesFor (giOf "(a)|(b)") 1) none ∈
      show_captured_groups [⟨0, 1, "b", [none, some "b"]⟩] "(a)|(b)" :=
  ⟨by decide,
   (group_inspector_reports [⟨0, 1, "b", [none, some "b"]⟩] "(a)|(b)"
     ⟨0, 1, "b", [none, some "b"]⟩ 1 none (by decide) (by decide) (by decide)).1⟩

/-- C2 counterexample: a group that did not participate (group 1 of pattern
with two alternative groups on text "b") and a group that matched the empty
string (group 1 of a starred group on text "x") produce the identical
rendered group line, so the no-value marker is not distinct from an
empty-string match. -/
theorem group_marker_not_distinct :
    recordsOf "b" "(a)|(b)" = [⟨0, 1, "b", [none, some "b"]⟩] ∧
    recordsOf "x" "(a*)" = [⟨0, 0, "", [some ""]⟩, ⟨1, 1, "", [some ""]⟩] ∧
    (show_captured_groups (recordsOf "b" "(a)|(b)") "(a)|(b)").get? 5 =
      some ("    Group 1: " ++ Colors.GREEN ++ "None" ++ Colors.RESET) ∧
    (show_captured_groups (recordsOf "x" "(a*)") "(a*)").get? 5 =
      some ("    Group 1: " ++ Colors.GREEN ++ "None" ++ Colors.RESET) :=
  ⟨by decide, by decide, by decide, by decide⟩

/-! ## Claim theorem: error reporting path of the loop -/

/-- C1: the highlighter returns the engine diagnostic verbatim inside the
error result with no partial rendered output, but the interactive loop's
error branch prints the literal text "None" — `print(result)` on the None
first tuple element — and never the diagnostic carried in the second tuple
slot, contradicting the code's own comment and the spec's requirement that
the diagnostic be surfaced. -/
theorem failing_pattern_prints_none :
    colorize_matches "abc" "(" Colors.RED =
      .err ("Regex error: missing ), unterminated subpattern at position 0") ∧
    loopStep "abc" Colors.RED ⟨none, []⟩ "(" = (⟨none, []⟩, [Out.text "None"]) ∧
    ("None" : String) ≠ "Regex error: missing ), unterminated subpattern at position 0" :=
  ⟨by decide, by decide, by decide⟩

end RegexTool

